import Mathlib

/-!
Verification of the sequence bin-packing collator of llm-foundry
(`llmfoundry/data/packing.py`): a shallow embedding of `BinPackCollator`,
its first-fit-decreasing engine `_first_fit_bin_packing`, the helpers
`_combine_in_place`, `_pad_tensor`, `_convert_to_batch` and
`_pack_trimmed_examples`, and the RNG handling of `auto_packing_ratio`,
together with theorems about conservation, capacity, output cardinality,
the combine rule, the fast-exit path, the internal consistency assertion,
error atomicity, padding, and the cumulative waste bound.

Modelling conventions:
* tensors are `List Int`; token sizes are `Nat` (they are counts of
  attention-mask ones, hence non-negative);
* Python exceptions are `Except`; where mutation of the collator object
  survives a raise (the engine appends to the aliased leftover-bin list in
  place), the error value carries the mutated state, so that the state a
  caller observes after a raise is part of the model;
* `sorted(..., key=lambda x: x[0], reverse=True)` is CPython's stable sort,
  modelled by `List.insertionSort` with the relation `b.1 ≤ a.1`, which is
  stable in the same sense.
-/

namespace LLMFoundryPacking

/-- Modelled from the spec: the constant `CROSS_ENTROPY_IGNORE_INDEX` is
imported from `llmfoundry.utils.consts`, a module that is not part of the
sources at hand; spec Scenario 3 fixes the ignore sentinel to `-100`. -/
def CROSS_ENTROPY_IGNORE_INDEX : Int := -100

/-- An example of the fixed field set `{input_ids, labels?, attention_mask,
sequence_id}` enforced by `BinPackCollator.pack`; every field is a 1-D
tensor, modelled as `List Int`.  The `labels` field is optional. -/
structure PackExample where
  input_ids : List Int
  labels : Option (List Int)
  attention_mask : List Int
  sequence_id : List Int
  deriving DecidableEq, Repr

/-- A bin of the packing engine: `(bin_size, packed_example)`. -/
abbrev PackBin := Nat × PackExample

/-- Total size held in a list of bins: `sum(bin_size for bin_size, _ in bins)`. -/
def sumBins (l : List PackBin) : Nat := (l.map Prod.fst).sum

/-- Stable descending sort by first component, modelling CPython's
`sorted(..., key=lambda x: x[0], reverse=True)` (stable: ties keep their
original relative order). -/
def sortBySizeDesc (l : List PackBin) : List PackBin :=
  l.insertionSort (fun a b => b.1 ≤ a.1)

/-- Message of the `IndexError` raised by `add_on['labels'][0] = ...` when
the labels tensor is empty. -/
def labelsEmptyMsg : String := "IndexError: labels tensor is empty"

/-- Message of the `KeyError` raised by `add_on['labels']` in the
concatenation loop when `example` has a `labels` key but `add_on` does not. -/
def keyErrorLabelsMsg : String := "KeyError: labels"

/-- Message of the `RuntimeError` raised by `torch.max` on an empty
`sequence_id` tensor. -/
def maxEmptyMsg : String := "RuntimeError: max on empty sequence_id tensor"

/-- Message of the inner loop assertion `assert n_remaining >= required_num_examples`
in `_first_fit_bin_packing`. -/
def remainingAssertMsg : String := "AssertionError: n_remaining < required_num_examples"

/-- Message of the consistency check `AssertionError` of
`_first_fit_bin_packing` (`total_example_sizes` vs `total_new_bin_sizes`). -/
def packingAssertionMsg : String :=
  "AssertionError: total_example_sizes does not equal total_new_bin_sizes"

/-- Message of the `IndexError` raised by `packed_examples[0]` in
`_convert_to_batch` on an empty list. -/
def emptyPackedMsg : String := "IndexError: packed_examples is empty"

/-- Message of the `RuntimeError` raised by the torch slice assignment in
`_pad_tensor` when the tensor does not fit the target buffer. -/
def shapeMismatchMsg : String := "RuntimeError: shape mismatch in padding assignment"

/-- Message of the `ValueError` raised by `_pad_tensor` for an unknown side. -/
def unknownSideMsg (padding_side : String) : String :=
  "ValueError: Unknown padding_side " ++ padding_side

/-- Models `add_on['labels'][0] = CROSS_ENTROPY_IGNORE_INDEX`: writing index 0
of an empty tensor is an `IndexError`. -/
def setFirstIgnore : List Int → Except String (List Int)
  | [] => .error labelsEmptyMsg
  | _ :: rest => .ok (CROSS_ENTROPY_IGNORE_INDEX :: rest)

/-- Models `_combine_in_place(example, add_on)`.

Source behaviour: if `add_on` has a `labels` field, its first label is forced
to `CROSS_ENTROPY_IGNORE_INDEX`; then, for each key of `example`, the fields
are concatenated, with `sequence_id` of `add_on` offset by
`1 + torch.max(example['sequence_id'])`.  The loop runs over the keys of
`example`, so when `example` has `labels` and `add_on` does not the lookup
`add_on['labels']` raises `KeyError`, and when `example` lacks `labels` any
`labels` of `add_on` is dropped; `torch.max` raises on an empty tensor. -/
def _combine_in_place (ex add_on : PackExample) : Except String PackExample :=
  match (match add_on.labels with
         | some l =>
           (match setFirstIgnore l with
            | .error m => .error m
            | .ok forced => .ok (some forced))
         | none => .ok none : Except String (Option (List Int))) with
  | .error m => .error m
  | .ok addOnLabels =>
    match (match ex.labels, addOnLabels with
           | some a, some b => .ok (some (a ++ b))
           | some _, none => .error keyErrorLabelsMsg
           | none, _ => .ok none : Except String (Option (List Int))) with
    | .error m => .error m
    | .ok newLabels =>
      match ex.sequence_id.max? with
      | none => .error maxEmptyMsg
      | some m =>
        .ok { input_ids := ex.input_ids ++ add_on.input_ids
              labels := newLabels
              attention_mask := ex.attention_mask ++ add_on.attention_mask
              sequence_id :=
                ex.sequence_id ++ add_on.sequence_id.map (fun x => x + 1 + m) }

/-- Models `_pad_tensor(tensor, pad_value, max_seq_len, padding_side)`.

The source first returns the tensor unchanged when it already has the target
length (for any `padding_side`); otherwise it allocates a buffer of
`pad_value`s and assigns the tensor into a slice.  For `padding_side='left'`
the slice is `t[-len(tensor):]`, which in Python denotes the whole buffer
when `len(tensor)` is `0` (since `-0 == 0`) or exceeds `max_seq_len`
(clamping), so the assignment raises a shape-mismatch `RuntimeError` in
those cases; for `'right'` the slice `t[:len(tensor)]` raises only when the
tensor is longer than the buffer.  Any other side raises `ValueError`. -/
def _pad_tensor (tensor : List Int) (pad_value : Int) (max_seq_len : Nat)
    (padding_side : String) : Except String (List Int) :=
  if tensor.length = max_seq_len then .ok tensor
  else if padding_side = "left" then
    if 1 ≤ tensor.length ∧ tensor.length ≤ max_seq_len then
      .ok (List.replicate (max_seq_len - tensor.length) pad_value ++ tensor)
    else .error shapeMismatchMsg
  else if padding_side = "right" then
    if tensor.length ≤ max_seq_len then
      .ok (tensor ++ List.replicate (max_seq_len - tensor.length) pad_value)
    else .error shapeMismatchMsg
  else .error (unknownSideMsg padding_side)

/-- Models the first-fit scan of `_first_fit_bin_packing`: find the first bin
with `bins[bidx][0] + size <= max_bin_size`, pop it, combine (unless
profiling), and append the grown bin at the end; `none` when no bin fits.
On a raise inside `_combine_in_place` the popped bin has already been
removed from the (aliased) bin list, so the error carries the bin list in
that state. -/
def tryFit (is_profiling : Bool) (max_bin_size : Nat) (size : Nat)
    (ex : PackExample) :
    List PackBin → Except (String × List PackBin) (Option (List PackBin))
  | [] => .ok none
  | (bin_size, packed_example) :: rest =>
    if bin_size + size ≤ max_bin_size then
      if is_profiling then .ok (some (rest ++ [(bin_size + size, packed_example)]))
      else
        match _combine_in_place packed_example ex with
        | .ok combined => .ok (some (rest ++ [(bin_size + size, combined)]))
        | .error m => .error (m, rest)
    else
      match tryFit is_profiling max_bin_size size ex rest with
      | .ok (some r) => .ok (some ((bin_size, packed_example) :: r))
      | .ok none => .ok none
      | .error (m, bs) => .error (m, (bin_size, packed_example) :: bs)

/-- Models the main item loop of `_first_fit_bin_packing` (general case).
`n_remaining` is `num_examples - i`; `required` is recomputed every
iteration as `max(0, num_bins - len(bins))` (natural subtraction).  When
`n_remaining == required` the item opens its own bin; otherwise it is
placed first-fit, opening a new bin when nothing fits. -/
def packLoop (is_profiling : Bool) (num_bins max_bin_size : Nat) :
    List PackBin → Nat → List PackBin →
    Except (String × List PackBin) (List PackBin)
  | [], _, bins => .ok bins
  | (size, ex) :: rest, n_remaining, bins =>
    let required := num_bins - bins.length
    if n_remaining < required then .error (remainingAssertMsg, bins)
    else if n_remaining = required then
      packLoop is_profiling num_bins max_bin_size rest (n_remaining - 1)
        (bins ++ [(size, ex)])
    else
      match tryFit is_profiling max_bin_size size ex bins with
      | .ok (some newBins) =>
        packLoop is_profiling num_bins max_bin_size rest (n_remaining - 1) newBins
      | .ok none =>
        packLoop is_profiling num_bins max_bin_size rest (n_remaining - 1)
          (bins ++ [(size, ex)])
      | .error e => .error e

/-- Models `_first_fit_bin_packing` up to and including the construction of
`sorted_bins` (everything before the final slicing into the returned
quadruple).  Mirrors the source: start from the existing bins, sort the
zipped `(size, example)` pairs descending, take the fast-exit branch when
there are fewer new items than `max(0, num_bins - len(bins))`, otherwise run
the first-fit loop; then run the consistency assertion and sort all bins
descending by size.  Errors carry the working bin list, which in the source
is the same (mutated in place) list object as the caller's
`existing_bins`. -/
def binPackCore (is_profiling : Bool) (sizes : List Nat) (examples : List PackExample)
    (num_bins max_bin_size : Nat) (existing_bins : List PackBin) :
    Except (String × List PackBin) (List PackBin) :=
  let bins := existing_bins
  let starting_total_bin_sizes := sumBins bins
  let sorted_sizes_and_examples := sortBySizeDesc (sizes.zip examples)
  let required_num_examples := num_bins - bins.length
  let num_examples := sizes.length
  if num_examples < required_num_examples then
    let bins := bins ++ sorted_sizes_and_examples
    if sumBins bins - starting_total_bin_sizes ≠ sizes.sum then
      .error (packingAssertionMsg, bins)
    else .ok (sortBySizeDesc bins)
  else
    match packLoop is_profiling num_bins max_bin_size sorted_sizes_and_examples
        num_examples bins with
    | .error e => .error e
    | .ok bins =>
      if sumBins bins - starting_total_bin_sizes ≠ sizes.sum then
        .error (packingAssertionMsg, bins)
      else .ok (sortBySizeDesc bins)

/-- The quadruple returned by `_first_fit_bin_packing`:
`(packed_examples, n_packed_tokens, n_total_tokens, leftover_bins)`. -/
structure PackResult where
  packed_examples : List PackExample
  n_packed_tokens : Nat
  n_total_tokens : Nat
  leftover_bins : List PackBin
  deriving DecidableEq, Repr

/-- Models `_first_fit_bin_packing(sizes, examples, num_bins, max_bin_size,
existing_bins)`: the `num_bins` largest packed examples, the total tokens in
them, the total size of all new examples, and the remaining sorted bins as
leftovers.  (`sum(bin_sizes[:num_bins])` equals summing the sizes of the
first `num_bins` sorted bins.) -/
def _first_fit_bin_packing (is_profiling : Bool) (sizes : List Nat)
    (examples : List PackExample) (num_bins max_bin_size : Nat)
    (existing_bins : List PackBin) : Except (String × List PackBin) PackResult :=
  match binPackCore is_profiling sizes examples num_bins max_bin_size existing_bins with
  | .error e => .error e
  | .ok sorted_bins =>
    .ok { packed_examples := (sorted_bins.take num_bins).map Prod.snd
          n_packed_tokens := sumBins (sorted_bins.take num_bins)
          n_total_tokens := sizes.sum
          leftover_bins := sorted_bins.drop num_bins }


/-- The state of a `BinPackCollator` instance (the base collator callable is
outside the model; `out_size`, `max_seq_len` and `pad_token_id` are the
coerced constructor arguments). -/
structure BinPackCollator where
  out_size : Nat
  max_seq_len : Nat
  pad_token_id : Int
  padding_side : String
  max_leftover_bins_to_keep : Option Nat
  n_packed_tokens : Nat
  n_total_tokens : Nat
  n_packed_examples : Nat
  leftover_bins : List PackBin
  is_profiling : Bool
  deriving DecidableEq, Repr

/-- Models `BinPackCollator.__init__`: eager validation of
`target_batch_size > 0`, `max_seq_len > 0`, `pad_token_id >= 0` and
`max_leftover_bins_to_keep >= 0` (or `None`), then the counters start at
zero and the leftover-bin list starts empty.  `padding_side` is not
validated by the constructor. -/
def mkBinPackCollator (target_batch_size max_seq_len pad_token_id : Int)
    (padding_side : String) (max_leftover_bins_to_keep : Option Int)
    (is_profiling : Bool) : Except String BinPackCollator :=
  if target_batch_size ≤ 0 then .error "ValueError: target_batch_size must be >0."
  else if max_seq_len ≤ 0 then .error "ValueError: max_seq_len must be >0."
  else if pad_token_id < 0 then .error "ValueError: pad_token_id must be >=0."
  else
    match max_leftover_bins_to_keep with
    | some k =>
      if k < 0 then .error "ValueError: max_leftover_bins_to_keep must be >=0 or None."
      else .ok { out_size := target_batch_size.toNat
                 max_seq_len := max_seq_len.toNat
                 pad_token_id := pad_token_id
                 padding_side := padding_side
                 max_leftover_bins_to_keep := some k.toNat
                 n_packed_tokens := 0
                 n_total_tokens := 0
                 n_packed_examples := 0
                 leftover_bins := []
                 is_profiling := is_profiling }
    | none =>
      .ok { out_size := target_batch_size.toNat
            max_seq_len := max_seq_len.toNat
            pad_token_id := pad_token_id
            padding_side := padding_side
            max_leftover_bins_to_keep := none
            n_packed_tokens := 0
            n_total_tokens := 0
            n_packed_examples := 0
            leftover_bins := []
            is_profiling := is_profiling }

/-- Models the `waste` property: `1 - n_packed_tokens / n_total_tokens`
(rational arithmetic; the Python float division raises when
`n_total_tokens` is zero, so the property is meaningful only after a call
that counted tokens). -/
def BinPackCollator.waste (c : BinPackCollator) : ℚ :=
  1 - (c.n_packed_tokens : ℚ) / (c.n_total_tokens : ℚ)

/-- Models `leftover_bins[:self.max_leftover_bins_to_keep]`: a `None` bound
keeps the whole list, a numeric bound truncates. -/
def truncateLeftovers (l : List PackBin) : Option Nat → List PackBin
  | none => l
  | some k => l.take k

/-- Models the padding of one packed example inside `_convert_to_batch`:
each field present in the key set is padded to `max_seq_len` with its
field-specific pad value (`input_ids` with `pad_token_id`, `labels` with
`CROSS_ENTROPY_IGNORE_INDEX`, `attention_mask` with `0`, `sequence_id` with
`-1`).  `hasLabels` records whether `labels` was in the key set of
`packed_examples[0]`; looking up a missing `labels` field is a `KeyError`,
and an extra `labels` field not in the key set is dropped. -/
def padOne (c : BinPackCollator) (hasLabels : Bool) (e : PackExample) :
    Except String PackExample :=
  match _pad_tensor e.input_ids c.pad_token_id c.max_seq_len c.padding_side with
  | .error m => .error m
  | .ok ii =>
    match (if hasLabels then
             match e.labels with
             | some l =>
               (match _pad_tensor l CROSS_ENTROPY_IGNORE_INDEX c.max_seq_len
                   c.padding_side with
                | .error m => .error m
                | .ok pl => .ok (some pl))
             | none => .error keyErrorLabelsMsg
           else .ok none : Except String (Option (List Int))) with
    | .error m => .error m
    | .ok lb =>
      match _pad_tensor e.attention_mask 0 c.max_seq_len c.padding_side with
      | .error m => .error m
      | .ok am =>
        match _pad_tensor e.sequence_id (-1) c.max_seq_len c.padding_side with
        | .error m => .error m
        | .ok sid =>
          .ok { input_ids := ii, labels := lb, attention_mask := am,
                sequence_id := sid }

/-- Pads every packed example in order (the per-key `torch.stack` of the
source is modelled as a list of padded examples, one per row of the stacked
batch). -/
def convertEach (c : BinPackCollator) (hasLabels : Bool) :
    List PackExample → Except String (List PackExample)
  | [] => .ok []
  | e :: rest =>
    match padOne c hasLabels e with
    | .error m => .error m
    | .ok pe =>
      match convertEach c hasLabels rest with
      | .error m => .error m
      | .ok prest => .ok (pe :: prest)

/-- Models `_convert_to_batch(packed_examples)`: the key set comes from
`packed_examples[0]` (an `IndexError` on an empty list), then every example
is padded to `max_seq_len` per key and stacked. -/
def _convert_to_batch (c : BinPackCollator) (packed_examples : List PackExample) :
    Except String (List PackExample) :=
  match packed_examples with
  | [] => .error emptyPackedMsg
  | e0 :: _ => convertEach c e0.labels.isSome packed_examples

/-- Models `_pack_trimmed_examples(trimmed_examples, sizes)`.

On engine success the counters are updated (`n_packed_examples` grows by
`out_size` unconditionally) and the leftover bins are truncated to
`max_leftover_bins_to_keep`; in profiling mode the call returns no batch,
otherwise the packed examples are re-padded by `_convert_to_batch`.  A
raise carries the collator state observable afterwards: the engine mutates
the caller's leftover-bin list in place (`bins = existing_bins` aliases
`self._leftover_bins` and the loop appends/pops on it), so an engine error
leaves `leftover_bins` in the engine's working state with counters
untouched, while a conversion error happens after all counter and leftover
updates. -/
def _pack_trimmed_examples (c : BinPackCollator) (trimmed_examples : List PackExample)
    (sizes : List Nat) :
    Except (String × BinPackCollator) (BinPackCollator × Option (List PackExample)) :=
  match _first_fit_bin_packing c.is_profiling sizes trimmed_examples c.out_size
      c.max_seq_len c.leftover_bins with
  | .error (msg, binsNow) => .error (msg, { c with leftover_bins := binsNow })
  | .ok r =>
    let c' : BinPackCollator :=
      { c with
        n_packed_tokens := c.n_packed_tokens + r.n_packed_tokens
        n_total_tokens := c.n_total_tokens + r.n_total_tokens
        n_packed_examples := c.n_packed_examples + c.out_size
        leftover_bins := truncateLeftovers r.leftover_bins c.max_leftover_bins_to_keep }
    if c.is_profiling then .ok (c', none)
    else
      match _convert_to_batch c' r.packed_examples with
      | .error msg => .error (msg, c')
      | .ok batch => .ok (c', some batch)

/-- Models the global-RNG control flow of `auto_packing_ratio` over an
abstract RNG state type `σ`.  The function stashes the RNG state, calls
`reproducibility.seed_all(0)` (modelled by the distinguished state
`seeded`), returns ratio `1` immediately when `max_seq_len <= 100`, and
otherwise profiles (`profilingUse` abstracts the randomness consumed by
`profile_packing` and the dataloader, and `chosenRatio` the ratio selected
from the profiling results and the distributed min-reduction, neither of
which touches the stash/restore logic) before loading the stashed state
back.  The returned pair is (packing ratio, global RNG state on return). -/
def auto_packing_ratio {σ : Type} (seeded : σ) (profilingUse : σ → σ)
    (chosenRatio : ℚ) (max_seq_len : Int) (rng0 : σ) : ℚ × σ :=
  let rng_state := rng0
  let s := seeded
  if max_seq_len ≤ 100 then (1, s)
  else
    let s := profilingUse s
    let _ := s
    (chosenRatio, rng_state)

/-- The collator states reachable by constructing a `BinPackCollator` and
performing finitely many successful `_pack_trimmed_examples` calls. -/
inductive ReachableCollator : BinPackCollator → Prop
  | init (target_batch_size max_seq_len pad_token_id : Int) (padding_side : String)
      (max_leftover_bins_to_keep : Option Int) (is_profiling : Bool)
      (c : BinPackCollator)
      (h : mkBinPackCollator target_batch_size max_seq_len pad_token_id padding_side
        max_leftover_bins_to_keep is_profiling = .ok c) : ReachableCollator c
  | step (c c' : BinPackCollator) (trimmed_examples : List PackExample)
      (sizes : List Nat) (b : Option (List PackExample))
      (hc : ReachableCollator c)
      (h : _pack_trimmed_examples c trimmed_examples sizes = .ok (c', b)) :
      ReachableCollator c'

/-- Well-formedness of an example of token size `s`: every present field has
length `s` (the trim utility produces exactly this shape). -/
def WFex (s : Nat) (e : PackExample) : Prop :=
  e.input_ids.length = s ∧ e.attention_mask.length = s ∧
  e.sequence_id.length = s ∧ (∀ l ∈ e.labels, l.length = s)

instance (s : Nat) (e : PackExample) : Decidable (WFex s e) := by
  unfold WFex; infer_instance

/-- A well-behaved bin for the packing loop: a well-formed payload of the
bin's recorded size, at least one token, within capacity, and with the
`labels` field present exactly when `lb` is true. -/
def GoodBin (cap : Nat) (lb : Bool) (b : PackBin) : Prop :=
  WFex b.1 b.2 ∧ 1 ≤ b.1 ∧ b.1 ≤ cap ∧ b.2.labels.isSome = lb

instance (cap : Nat) (lb : Bool) (b : PackBin) : Decidable (GoodBin cap lb b) := by
  unfold GoodBin; infer_instance

theorem sortBySizeDesc_perm (l : List PackBin) : (sortBySizeDesc l).Perm l :=
  List.perm_insertionSort _ l

theorem sumBins_append (l₁ l₂ : List PackBin) :
    sumBins (l₁ ++ l₂) = sumBins l₁ + sumBins l₂ := by
  simp [sumBins]

theorem sumBins_perm {l₁ l₂ : List PackBin} (h : l₁.Perm l₂) :
    sumBins l₁ = sumBins l₂ :=
  (h.map Prod.fst).sum_eq

theorem sumBins_sortBySizeDesc (l : List PackBin) :
    sumBins (sortBySizeDesc l) = sumBins l :=
  sumBins_perm (sortBySizeDesc_perm l)

theorem sumBins_take_le (l : List PackBin) (n : Nat) :
    sumBins (l.take n) ≤ sumBins l := by
  calc sumBins (l.take n) ≤ sumBins (l.take n) + sumBins (l.drop n) :=
        Nat.le_add_right _ _
    _ = sumBins l := by rw [← sumBins_append, List.take_append_drop]

theorem sumBins_zip (sizes : List Nat) (examples : List PackExample)
    (h : sizes.length ≤ examples.length) :
    sumBins (sizes.zip examples) = sizes.sum := by
  simp [sumBins, List.map_fst_zip sizes examples h]

theorem max?_of_ne_nil {l : List Int} (h : l ≠ []) : ∃ m, l.max? = some m := by
  cases l with
  | nil => exact absurd rfl h
  | cons a t => exact ⟨t.foldl max a, rfl⟩

/-- Behaviour of `_combine_in_place` on compatible inputs: the add-on labels
(if any) get their first entry forced to the ignore index, the sequence ids
of the add-on are offset by one plus the running maximum, and all fields are
concatenated. -/
theorem combine_spec (e a : PackExample) (m : Int)
    (hmax : e.sequence_id.max? = some m)
    (hcompat : e.labels.isSome = a.labels.isSome)
    (hne : ∀ l ∈ a.labels, l ≠ []) :
    _combine_in_place e a = .ok
      { input_ids := e.input_ids ++ a.input_ids
        labels := match e.labels, a.labels with
                  | some l1, some l2 =>
                    some (l1 ++ CROSS_ENTROPY_IGNORE_INDEX :: l2.tail)
                  | _, _ => none
        attention_mask := e.attention_mask ++ a.attention_mask
        sequence_id := e.sequence_id ++ a.sequence_id.map (fun x => x + 1 + m) } := by
  cases ha : a.labels with
  | none =>
    have he : e.labels = none := by
      cases hel : e.labels with
      | none => rfl
      | some l => rw [hel, ha] at hcompat; simp at hcompat
    simp [_combine_in_place, ha, he, hmax]
  | some l2 =>
    cases l2 with
    | nil => exact absurd rfl ((by simpa [ha] using hne : ([] : List Int) ≠ []))
    | cons h2 t2 =>
      have he : ∃ l1, e.labels = some l1 := by
        cases hel : e.labels with
        | none => rw [hel, ha] at hcompat; simp at hcompat
        | some l1 => exact ⟨l1, rfl⟩
      obtain ⟨l1, hl1⟩ := he
      simp [_combine_in_place, ha, hl1, hmax, setFirstIgnore]

theorem combine_error_ne (e a : PackExample) (msg : String)
    (h : _combine_in_place e a = .error msg) : msg ≠ packingAssertionMsg := by
  cases ha : a.labels with
  | none =>
    cases hel : e.labels with
    | none =>
      cases hm : e.sequence_id.max? with
      | none => simp [_combine_in_place, ha, hel, hm] at h; subst h; decide
      | some m => simp [_combine_in_place, ha, hel, hm] at h
    | some l1 =>
      simp [_combine_in_place, ha, hel] at h; subst h; decide
  | some l2 =>
    cases l2 with
    | nil =>
      simp [_combine_in_place, ha, setFirstIgnore] at h; subst h; decide
    | cons x xs =>
      cases hel : e.labels with
      | none =>
        cases hm : e.sequence_id.max? with
        | none =>
          simp [_combine_in_place, ha, hel, hm, setFirstIgnore] at h; subst h; decide
        | some m => simp [_combine_in_place, ha, hel, hm, setFirstIgnore] at h
      | some l1 =>
        cases hm : e.sequence_id.max? with
        | none =>
          simp [_combine_in_place, ha, hel, hm, setFirstIgnore] at h; subst h; decide
        | some m => simp [_combine_in_place, ha, hel, hm, setFirstIgnore] at h

/-- C4: combining an add-on example into a non-empty bin's packed example
forces the first element of the add-on's labels field (when present) to the
ignore sentinel `-100`, offsets the add-on's `sequence_id` values by `1`
plus the maximum `sequence_id` already in the bin, and concatenates every
other field directly along the sequence axis.  (`e` is the bin's packed
example, non-empty so its `sequence_id` is non-empty; the two examples share
the fixed field set, so `labels` is present in both or neither, and a
present `labels` tensor is non-empty.) -/
theorem combine_rule (e a : PackExample) (hseq : e.sequence_id ≠ [])
    (hcompat : e.labels.isSome = a.labels.isSome)
    (hne : ∀ l ∈ a.labels, l ≠ []) :
    ∃ m, e.sequence_id.max? = some m ∧ _combine_in_place e a = .ok
      { input_ids := e.input_ids ++ a.input_ids
        labels := match e.labels, a.labels with
                  | some l1, some l2 =>
                    some (l1 ++ CROSS_ENTROPY_IGNORE_INDEX :: l2.tail)
                  | _, _ => none
        attention_mask := e.attention_mask ++ a.attention_mask
        sequence_id := e.sequence_id ++ a.sequence_id.map (fun x => x + 1 + m) } := by
  obtain ⟨m, hm⟩ := max?_of_ne_nil hseq
  exact ⟨m, hm, combine_spec e a m hm hcompat hne⟩

/-- Witness for `combine_rule` at spec Scenario 3: labels `[5,6,7]` and
`[8,9]` combine to `[5,6,7,-100,9]`, and the appended `sequence_id` segment
is offset by `1 + max` of the bin's segment ids. -/
theorem combine_rule_witness :
    _combine_in_place ⟨[1,2,3], some [5,6,7], [1,1,1], [0,0,0]⟩
        ⟨[4,5], some [8,9], [1,1], [0,0]⟩ =
      .ok ⟨[1,2,3,4,5], some [5,6,7,-100,9], [1,1,1,1,1], [0,0,0,1,1]⟩ := by
  obtain ⟨m, hm, hc⟩ := combine_rule ⟨[1,2,3], some [5,6,7], [1,1,1], [0,0,0]⟩
    ⟨[4,5], some [8,9], [1,1], [0,0]⟩ (by decide) (by decide) (by decide)
  have hm0 : m = 0 := by
    have : (some m : Option Int) = some 0 := by rw [← hm]; decide
    simpa using this
  subst hm0
  simpa using hc

/-- C9 counterexample: `_pad_tensor` does not raise on an unsupported side
when the tensor already has the target length; it returns the tensor
unchanged, so the side argument is not validated in that case. -/
theorem pad_side_validation_counterexample :
    _pad_tensor [1,2,3] 0 3 "bogus" = .ok [1,2,3] ∧
    "bogus" ≠ "left" ∧ "bogus" ≠ "right" :=
  ⟨rfl, by decide, by decide⟩

/-- C9 (amended): an input already at target length is returned unchanged
for any side (including unsupported ones); otherwise an unsupported side
raises; a valid side with a non-empty input no longer than the target
returns the values flush to that side in a sequence of exactly the target
length (the left-side case needs a non-empty input because the source's
`t[-len(tensor):]` slice denotes the whole buffer when the length is 0);
a longer input raises even for valid sides. -/
theorem pad_tensor_amended (tensor : List Int) (pad_value : Int)
    (max_seq_len : Nat) (padding_side : String) :
    (tensor.length = max_seq_len →
      _pad_tensor tensor pad_value max_seq_len padding_side = .ok tensor) ∧
    (tensor.length ≠ max_seq_len → padding_side ≠ "left" → padding_side ≠ "right" →
      _pad_tensor tensor pad_value max_seq_len padding_side =
        .error (unknownSideMsg padding_side)) ∧
    (1 ≤ tensor.length → tensor.length ≤ max_seq_len →
      _pad_tensor tensor pad_value max_seq_len "left" =
        .ok (List.replicate (max_seq_len - tensor.length) pad_value ++ tensor)) ∧
    (tensor.length ≤ max_seq_len →
      _pad_tensor tensor pad_value max_seq_len "right" =
        .ok (tensor ++ List.replicate (max_seq_len - tensor.length) pad_value)) ∧
    (max_seq_len < tensor.length →
      _pad_tensor tensor pad_value max_seq_len "left" = .error shapeMismatchMsg ∧
      _pad_tensor tensor pad_value max_seq_len "right" = .error shapeMismatchMsg) := by
  refine ⟨fun h => by simp [_pad_tensor, h], fun h hl hr => by
    simp [_pad_tensor, h, hl, hr], fun h1 h2 => ?_, fun h2 => ?_, fun hgt => ?_⟩
  · by_cases h : tensor.length = max_seq_len
    · simp [_pad_tensor, h, Nat.sub_self]
    · simp [_pad_tensor, h, h1, h2]
  · by_cases h : tensor.length = max_seq_len
    · simp [_pad_tensor, h, Nat.sub_self]
    · simp [_pad_tensor, h, h2]
  · have hne : tensor.length ≠ max_seq_len := by omega
    have hle : ¬ tensor.length ≤ max_seq_len := by omega
    constructor
    · simp [_pad_tensor, hne, hle]
    · simp [_pad_tensor, hne, hle]

/-- Witness for `pad_tensor_amended` at spec Scenario 5: `[1,2,3]` padded to
length 5 gives `[0,0,1,2,3]` on the left and `[1,2,3,0,0]` on the right. -/
theorem pad_tensor_amended_witness :
    _pad_tensor [1,2,3] 0 5 "left" = .ok (List.replicate 2 0 ++ [1,2,3]) ∧
    _pad_tensor [1,2,3] 0 5 "right" = .ok ([1,2,3] ++ List.replicate 2 0) :=
  ⟨(pad_tensor_amended [1,2,3] 0 5 "left").2.2.1 (by decide) (by decide),
   (pad_tensor_amended [1,2,3] 0 5 "right").2.2.2.1 (by decide)⟩

/-- C8: the `max_seq_len <= 100` short-circuit of `auto_packing_ratio`
returns ratio 1 with the global RNG still in the freshly seeded state
(`seed_all(0)` has run, `load_rng_state` has not), so the caller's prior
RNG state (here `7`) is not restored on that exit path, contradicting the
stash-to-restore-later intent; on the profiling path the stashed state is
restored. -/
theorem auto_packing_ratio_rng_not_restored :
    auto_packing_ratio (σ := Nat) 0 id 1 50 7 = (1, 0) ∧ (0 : Nat) ≠ 7 ∧
    (auto_packing_ratio (σ := Nat) 0 id (3/2) 200 7).2 = 7 :=
  ⟨rfl, by decide, rfl⟩

theorem tryFit_ok_some (p : Bool) (cap size : Nat) (ex : PackExample) :
    ∀ bins r, tryFit p cap size ex bins = .ok (some r) →
      sumBins r = sumBins bins + size ∧ r.length = bins.length := by
  intro bins
  induction bins with
  | nil => intro r h; simp [tryFit] at h
  | cons b rest ih =>
    intro r h
    obtain ⟨bs, be⟩ := b
    rw [tryFit] at h
    split at h
    · split at h
      · cases h with
        | refl => constructor <;> simp [sumBins] <;> omega
      · split at h
        · cases h with
          | refl => constructor <;> simp [sumBins] <;> omega
        · cases h
    · split at h
      next r2 heq =>
        cases h with
        | refl =>
          obtain ⟨hsum, hlen⟩ := ih r2 heq
          constructor
          · simp only [sumBins, List.map_cons, List.sum_cons] at hsum ⊢
            omega
          · simp [hlen]
      · cases h
      · cases h

theorem tryFit_cap (p : Bool) (cap size : Nat) (ex : PackExample) :
    ∀ bins r, (∀ b ∈ bins, b.1 ≤ cap) →
      tryFit p cap size ex bins = .ok (some r) → ∀ b ∈ r, b.1 ≤ cap := by
  intro bins
  induction bins with
  | nil => intro r _ h; simp [tryFit] at h
  | cons b rest ih =>
    intro r hcap h
    obtain ⟨bs, be⟩ := b
    rw [tryFit] at h
    split at h
    next hfit =>
      have hrest : ∀ x ∈ rest, x.1 ≤ cap := fun x hx => hcap x (List.mem_cons_of_mem _ hx)
      split at h
      · cases h with
        | refl =>
          intro x hx
          rcases List.mem_append.mp hx with hx | hx
          · exact hrest x hx
          · simp at hx; subst hx; exact hfit
      · split at h
        · cases h with
          | refl =>
            intro x hx
            rcases List.mem_append.mp hx with hx | hx
            · exact hrest x hx
            · simp at hx
              rcases hx with ⟨h1, _⟩
              omega
        · cases h
    · split at h
      next r2 heq =>
        cases h with
        | refl =>
          intro x hx
          rcases List.mem_cons.mp hx with hx | hx
          · subst hx; exact hcap (bs, be) (List.mem_cons_self _ _)
          · exact ih r2 (fun y hy => hcap y (List.mem_cons_of_mem _ hy)) heq x hx
      · cases h
      · cases h

theorem combine_error_cases (e a : PackExample) (msg : String)
    (h : _combine_in_place e a = .error msg) :
    msg = labelsEmptyMsg ∨ msg = keyErrorLabelsMsg ∨ msg = maxEmptyMsg := by
  revert h
  unfold _combine_in_place
  cases ha : a.labels with
  | none =>
    cases hel : e.labels with
    | none =>
      cases hm : e.sequence_id.max? with
      | none => intro h; simp [hm] at h; exact .inr (.inr h.symm)
      | some mm => intro h; simp [hm] at h
    | some l1 => intro h; simp at h; exact .inr (.inl h.symm)
  | some l2 =>
    cases l2 with
    | nil => intro h; simp [setFirstIgnore] at h; exact .inl h.symm
    | cons x xs =>
      cases hel : e.labels with
      | none =>
        cases hm : e.sequence_id.max? with
        | none =>
          intro h; simp [hel, hm, setFirstIgnore] at h; exact .inr (.inr h.symm)
        | some mm => intro h; simp [hel, hm, setFirstIgnore] at h
      | some l1 =>
        cases hm : e.sequence_id.max? with
        | none =>
          intro h; simp [hel, hm, setFirstIgnore] at h; exact .inr (.inr h.symm)
        | some mm => intro h; simp [hel, hm, setFirstIgnore] at h

theorem tryFit_error_ne (p : Bool) (cap size : Nat) (ex : PackExample) :
    ∀ bins msg bs, tryFit p cap size ex bins = .error (msg, bs) →
      msg ≠ packingAssertionMsg ∧ msg ≠ remainingAssertMsg := by
  intro bins
  induction bins with
  | nil => intro msg bs h; simp [tryFit] at h
  | cons b rest ih =>
    intro msg bs h
    obtain ⟨bsz, be⟩ := b
    rw [tryFit] at h
    split at h
    · split at h
      · cases h
      · split at h
        · cases h
        next heq =>
          cases h with
          | refl =>
            rcases combine_error_cases _ _ _ heq with h2 | h2 | h2 <;>
              subst h2 <;> exact ⟨by decide, by decide⟩
    · split at h
      · cases h
      · cases h
      next heq =>
        cases h with
        | refl => exact ih _ _ heq

theorem combine_good (cap : Nat) (lb : Bool) (bs size : Nat) (be ex : PackExample)
    (hb : GoodBin cap lb (bs, be)) (hwf : WFex size ex) (hs : 1 ≤ size)
    (hlb : ex.labels.isSome = lb) (hfit : bs + size ≤ cap) :
    ∃ comb, _combine_in_place be ex = .ok comb ∧ GoodBin cap lb (bs + size, comb) := by
  obtain ⟨⟨hii, ham, hsid, hlab⟩, hb1, hbcap, hblb⟩ := hb
  obtain ⟨hii2, ham2, hsid2, hlab2⟩ := hwf
  have hseq : be.sequence_id ≠ [] := by
    intro hnil
    rw [hnil] at hsid
    simp at hsid
    omega
  obtain ⟨m, hm⟩ := max?_of_ne_nil hseq
  have hne : ∀ l ∈ ex.labels, l ≠ [] := by
    intro l hl hnil
    have hll := hlab2 l hl
    rw [hnil] at hll
    simp at hll
    omega
  have hcompat : be.labels.isSome = ex.labels.isSome := by rw [hblb, hlb]
  refine ⟨_, combine_spec be ex m hm hcompat hne, ⟨?_, ?_, ?_, ?_⟩, by omega, hfit, ?_⟩
  · simp [hii, hii2]
  · simp [ham, ham2]
  · simp [hsid, hsid2]
  · intro l hl
    revert hl
    cases hbel : be.labels with
    | none =>
      cases hexl : ex.labels with
      | none => intro hl; simp at hl
      | some l2 => intro hl; simp at hl
    | some l1 =>
      cases hexl : ex.labels with
      | none =>
        rw [hbel, hexl] at hcompat
        simp at hcompat
      | some l2 =>
        intro hl
        simp at hl
        subst hl
        have hl1 : l1.length = bs := hlab l1 (by rw [hbel]; rfl)
        have hl2 : l2.length = size := hlab2 l2 (by rw [hexl]; rfl)
        have hl2ne : l2 ≠ [] := by
          intro hnil
          rw [hnil] at hl2
          simp at hl2
          omega
        simp [List.length_tail]
        omega
  · cases hbel : be.labels with
    | none =>
      cases hexl : ex.labels with
      | none =>
        rw [hbel] at hblb
        simpa using hblb.symm ▸ rfl
      | some l2 =>
        rw [hbel] at hblb
        rw [hexl] at hlb
        rw [← hblb] at hlb
        simp at hlb
    | some l1 =>
      cases hexl : ex.labels with
      | none =>
        rw [hbel, hexl] at hcompat
        simp at hcompat
      | some l2 =>
        rw [hbel] at hblb
        simpa using hblb

theorem tryFit_sound (cap size : Nat) (ex : PackExample) (lb : Bool)
    (hwf : WFex size ex) (hs : 1 ≤ size) (hlb : ex.labels.isSome = lb) :
    ∀ bins, (∀ b ∈ bins, GoodBin cap lb b) →
      tryFit false cap size ex bins = .ok none ∨
      ∃ r, tryFit false cap size ex bins = .ok (some r) ∧
        ∀ b ∈ r, GoodBin cap lb b := by
  intro bins
  induction bins with
  | nil => exact fun _ => .inl rfl
  | cons b rest ih =>
    intro hg
    obtain ⟨bs, be⟩ := b
    by_cases hfit : bs + size ≤ cap
    · right
      obtain ⟨comb, hcomb, hgood⟩ := combine_good cap lb bs size be ex
        (hg _ (List.mem_cons_self _ _)) hwf hs hlb hfit
      refine ⟨rest ++ [(bs + size, comb)], ?_, ?_⟩
      · rw [tryFit, if_pos hfit]
        simp [hcomb]
      · intro x hx
        rcases List.mem_append.mp hx with hx | hx
        · exact hg x (List.mem_cons_of_mem _ hx)
        · simp at hx
          subst hx
          exact hgood
    · rcases ih (fun y hy => hg y (List.mem_cons_of_mem _ hy)) with hnone | ⟨r, hr, hrg⟩
      · left
        rw [tryFit, if_neg hfit, hnone]
      · right
        refine ⟨(bs, be) :: r, ?_, ?_⟩
        · rw [tryFit, if_neg hfit, hr]
        · intro x hx
          rcases List.mem_cons.mp hx with hx | hx
          · subst hx
            exact hg _ (List.mem_cons_self _ _)
          · exact hrg x hx

theorem packLoop_ok_sum (p : Bool) (num_bins cap : Nat) :
    ∀ items n bins bins2,
      packLoop p num_bins cap items n bins = .ok bins2 →
      sumBins bins2 = sumBins bins + sumBins items := by
  intro items
  induction items with
  | nil =>
    intro n bins bins2 h
    rw [packLoop] at h
    cases h
    simp [sumBins]
  | cons it rest ih =>
    intro n bins bins2 h
    obtain ⟨size, ex⟩ := it
    rw [packLoop] at h
    split at h
    · cases h
    · split at h
      · have h2 := ih _ _ _ h
        rw [h2, sumBins_append]
        simp only [sumBins, List.map_cons, List.sum_cons, List.map_nil, List.sum_nil]
        omega
      · split at h
        next newBins heq =>
          have h2 := ih _ _ _ h
          obtain ⟨hsum, _⟩ := tryFit_ok_some p cap size ex bins newBins heq
          rw [h2, hsum]
          simp only [sumBins, List.map_cons, List.sum_cons]
          omega
        next heq =>
          have h2 := ih _ _ _ h
          rw [h2, sumBins_append]
          simp only [sumBins, List.map_cons, List.sum_cons, List.map_nil, List.sum_nil]
          omega
        · cases h

theorem packLoop_error_ne (p : Bool) (num_bins cap : Nat) :
    ∀ items n bins msg bs,
      packLoop p num_bins cap items n bins = .error (msg, bs) →
      msg ≠ packingAssertionMsg := by
  intro items
  induction items with
  | nil =>
    intro n bins msg bs h
    rw [packLoop] at h
    cases h
  | cons it rest ih =>
    intro n bins msg bs h
    obtain ⟨size, ex⟩ := it
    rw [packLoop] at h
    split at h
    · cases h with
      | refl => decide
    · split at h
      · exact ih _ _ _ _ h
      · split at h
        · exact ih _ _ _ _ h
        · exact ih _ _ _ _ h
        next e heq =>
          obtain ⟨e1, e2⟩ := e
          cases h with
          | refl => exact (tryFit_error_ne p cap size ex bins _ _ heq).1

theorem packLoop_cap (p : Bool) (num_bins cap : Nat) :
    ∀ items n bins bins2,
      (∀ x ∈ items, x.1 ≤ cap) → (∀ b ∈ bins, b.1 ≤ cap) →
      packLoop p num_bins cap items n bins = .ok bins2 →
      ∀ b ∈ bins2, b.1 ≤ cap := by
  intro items
  induction items with
  | nil =>
    intro n bins bins2 _ hg h
    rw [packLoop] at h
    cases h
    exact hg
  | cons it rest ih =>
    intro n bins bins2 hitems hg h
    obtain ⟨size, ex⟩ := it
    have hsz : size ≤ cap := hitems (size, ex) (List.mem_cons_self _ _)
    have hrest : ∀ x ∈ rest, x.1 ≤ cap := fun x hx => hitems x (List.mem_cons_of_mem _ hx)
    have happ : ∀ b ∈ bins ++ [(size, ex)], b.1 ≤ cap := by
      intro x hx
      rcases List.mem_append.mp hx with hx | hx
      · exact hg x hx
      · simp at hx
        subst hx
        exact hsz
    rw [packLoop] at h
    split at h
    · cases h
    · split at h
      · exact ih _ _ _ hrest happ h
      · split at h
        next newBins heq =>
          exact ih _ _ _ hrest (tryFit_cap p cap size ex bins newBins hg heq) h
        next heq => exact ih _ _ _ hrest happ h
        · cases h

theorem packLoop_sound (num_bins cap : Nat) (lb : Bool) :
    ∀ items bins,
      (∀ x ∈ items, WFex x.1 x.2 ∧ 1 ≤ x.1 ∧ x.1 ≤ cap ∧ x.2.labels.isSome = lb) →
      (∀ b ∈ bins, GoodBin cap lb b) →
      num_bins ≤ bins.length + items.length →
      ∃ bins2, packLoop false num_bins cap items items.length bins = .ok bins2 ∧
        (∀ b ∈ bins2, GoodBin cap lb b) ∧ num_bins ≤ bins2.length := by
  intro items
  induction items with
  | nil =>
    intro bins _ hg hcount
    exact ⟨bins, rfl, hg, by simpa using hcount⟩
  | cons it rest ih =>
    intro bins hitems hg hcount
    obtain ⟨size, ex⟩ := it
    obtain ⟨hwf, h1, hcap, hlb⟩ := hitems (size, ex) (List.mem_cons_self _ _)
    have hrest : ∀ x ∈ rest, WFex x.1 x.2 ∧ 1 ≤ x.1 ∧ x.1 ≤ cap ∧
        x.2.labels.isSome = lb :=
      fun x hx => hitems x (List.mem_cons_of_mem _ hx)
    have hcount2 : num_bins ≤ bins.length + (rest.length + 1) := by
      simpa using hcount
    have hgapp : ∀ b ∈ bins ++ [(size, ex)], GoodBin cap lb b := by
      intro x hx
      rcases List.mem_append.mp hx with hx | hx
      · exact hg x hx
      · simp at hx
        subst hx
        exact ⟨hwf, h1, hcap, hlb⟩
    rw [packLoop]
    simp only [List.length_cons]
    rw [if_neg (by omega)]
    by_cases heqreq : rest.length + 1 = num_bins - bins.length
    · rw [if_pos heqreq]
      have := ih (bins ++ [(size, ex)]) hrest hgapp (by simp; omega)
      simpa using this
    · rw [if_neg heqreq]
      rcases tryFit_sound cap size ex lb hwf h1 hlb bins hg with hnone | ⟨r, hr, hrg⟩
      · rw [hnone]
        have := ih (bins ++ [(size, ex)]) hrest hgapp (by simp; omega)
        simpa using this
      · rw [hr]
        obtain ⟨_, hrlen⟩ := tryFit_ok_some false cap size ex bins r hr
        have := ih r hrest hrg (by omega)
        simpa using this

theorem binPackCore_ok_sum (p : Bool) (sizes : List Nat) (examples : List PackExample)
    (num_bins cap : Nat) (existing : List PackBin) (bs : List PackBin)
    (h : binPackCore p sizes examples num_bins cap existing = .ok bs) :
    sumBins bs = sumBins existing + sizes.sum := by
  simp only [binPackCore] at h
  split at h
  · split at h
    · cases h
    next hguard =>
      cases h
      rw [not_not] at hguard
      rw [sumBins_append, sumBins_sortBySizeDesc] at hguard
      rw [sumBins_sortBySizeDesc, sumBins_append, sumBins_sortBySizeDesc]
      omega
  · split at h
    · cases h
    next bins2 heq =>
      split at h
      · cases h
      next hguard =>
        cases h
        rw [not_not] at hguard
        have hsum := packLoop_ok_sum p num_bins cap _ _ _ _ heq
        rw [sumBins_sortBySizeDesc] at hsum
        rw [sumBins_sortBySizeDesc]
        omega

theorem binPackCore_error_ne (p : Bool) (sizes : List Nat)
    (examples : List PackExample) (num_bins cap : Nat) (existing : List PackBin)
    (hlen : sizes.length = examples.length) :
    ∀ msg bs, binPackCore p sizes examples num_bins cap existing = .error (msg, bs) →
      msg ≠ packingAssertionMsg := by
  intro msg bs h
  have hz : sumBins (sizes.zip examples) = sizes.sum :=
    sumBins_zip sizes examples (le_of_eq hlen)
  simp only [binPackCore] at h
  split at h
  · split at h
    next hguard =>
      exfalso
      rw [sumBins_append, sumBins_sortBySizeDesc, hz] at hguard
      omega
    · cases h
  · split at h
    next e heq =>
      obtain ⟨m1, bs1⟩ := e
      cases h with
      | refl => exact packLoop_error_ne p num_bins cap _ _ _ _ _ heq
    next bins2 heq =>
      split at h
      next hguard =>
        exfalso
        have hsum := packLoop_ok_sum p num_bins cap _ _ _ _ heq
        rw [sumBins_sortBySizeDesc, hz] at hsum
        omega
      · cases h

theorem binPackCore_sound (sizes : List Nat) (examples : List PackExample)
    (num_bins cap : Nat) (existing : List PackBin) (lb : Bool)
    (hlen : sizes.length = examples.length)
    (hsuff : num_bins ≤ sizes.length + existing.length)
    (hitems : ∀ x ∈ sizes.zip examples,
      WFex x.1 x.2 ∧ 1 ≤ x.1 ∧ x.1 ≤ cap ∧ x.2.labels.isSome = lb)
    (hbins : ∀ b ∈ existing, GoodBin cap lb b) :
    ∃ bs, binPackCore false sizes examples num_bins cap existing = .ok bs ∧
      (∀ b ∈ bs, GoodBin cap lb b) ∧ num_bins ≤ bs.length := by
  have hzlen : (sizes.zip examples).length = sizes.length := by
    rw [List.length_zip]
    omega
  have hslen : (sortBySizeDesc (sizes.zip examples)).length = sizes.length := by
    rw [(sortBySizeDesc_perm _).length_eq, hzlen]
  have hsitems : ∀ x ∈ sortBySizeDesc (sizes.zip examples),
      WFex x.1 x.2 ∧ 1 ≤ x.1 ∧ x.1 ≤ cap ∧ x.2.labels.isSome = lb :=
    fun x hx => hitems x ((sortBySizeDesc_perm _).mem_iff.mp hx)
  obtain ⟨bins2, hloop, hg2, hlen2⟩ :=
    packLoop_sound num_bins cap lb (sortBySizeDesc (sizes.zip examples)) existing
      hsitems hbins (by rw [hslen]; omega)
  rw [hslen] at hloop
  have hsum := packLoop_ok_sum false num_bins cap _ _ _ _ hloop
  have hz : sumBins (sortBySizeDesc (sizes.zip examples)) = sizes.sum := by
    rw [sumBins_sortBySizeDesc]
    exact sumBins_zip sizes examples (le_of_eq hlen)
  refine ⟨sortBySizeDesc bins2, ?_, ?_, ?_⟩
  · simp only [binPackCore]
    rw [if_neg (by omega), hloop]
    have hgu : ¬ (sumBins bins2 - sumBins existing ≠ sizes.sum) := by omega
    simp only [hgu, if_false, ite_false, if_neg hgu]
  · exact fun b hb => hg2 b ((sortBySizeDesc_perm _).mem_iff.mp hb)
  · rw [(sortBySizeDesc_perm _).length_eq]
    exact hlen2

theorem first_fit_ok_elim {p : Bool} {sizes : List Nat} {examples : List PackExample}
    {num_bins cap : Nat} {existing : List PackBin} {r : PackResult}
    (h : _first_fit_bin_packing p sizes examples num_bins cap existing = .ok r) :
    ∃ bs, binPackCore p sizes examples num_bins cap existing = .ok bs ∧
      r.packed_examples = (bs.take num_bins).map Prod.snd ∧
      r.n_packed_tokens = sumBins (bs.take num_bins) ∧
      r.n_total_tokens = sizes.sum ∧
      r.leftover_bins = bs.drop num_bins := by
  unfold _first_fit_bin_packing at h
  split at h
  · cases h
  next bs heq =>
    cases h
    exact ⟨bs, heq, rfl, rfl, rfl, rfl⟩

/-- C1: token conservation of the bin-packing engine.  For every call of
`_first_fit_bin_packing` that returns, the tokens going in (sum of the new
item sizes plus sum of the carried-in existing bin sizes) equal the tokens
coming out (sum of the sizes of the returned packed bins, which is the
returned `n_packed_tokens`, plus sum of the sizes of the returned leftover
bins). -/
theorem token_conservation (is_profiling : Bool) (sizes : List Nat)
    (examples : List PackExample) (num_bins max_bin_size : Nat)
    (existing_bins : List PackBin) (r : PackResult)
    (h : _first_fit_bin_packing is_profiling sizes examples num_bins max_bin_size
      existing_bins = .ok r) :
    r.n_packed_tokens + sumBins r.leftover_bins = sizes.sum + sumBins existing_bins := by
  obtain ⟨bs, hcore, _, hp, _, hl⟩ := first_fit_ok_elim h
  have hsum := binPackCore_ok_sum is_profiling sizes examples num_bins max_bin_size
    existing_bins bs hcore
  rw [hp, hl, ← sumBins_append, List.take_append_drop, hsum]
  omega

/-- Witness for `token_conservation` on a concrete call. -/
theorem token_conservation_witness :
    (⟨[⟨[4,4], none, [1,1], [0,0]⟩], 2, 2, []⟩ : PackResult).n_packed_tokens +
        sumBins (⟨[⟨[4,4], none, [1,1], [0,0]⟩], 2, 2, []⟩ : PackResult).leftover_bins =
      [2].sum + sumBins [] :=
  token_conservation false [2] [⟨[4,4], none, [1,1], [0,0]⟩] 1 4 []
    ⟨[⟨[4,4], none, [1,1], [0,0]⟩], 2, 2, []⟩ rfl

/-- C2 counterexample: with an item larger than `max_bin_size` (sizes
`[101]`, capacity 100) the engine gives the item its own bin of size 101,
which is returned in the final sorted bin list, so not every bin respects
`current_size <= max_bin_size` for arbitrary sizes. -/
theorem capacity_invariant_counterexample :
    binPackCore false [101] [⟨[9], none, [1], [0]⟩] 1 100 [] =
      .ok [(101, ⟨[9], none, [1], [0]⟩)] ∧ ¬ (101 ≤ 100) :=
  ⟨rfl, by decide⟩

/-- C2 (amended): the capacity invariant holds for every bin produced by the
engine provided every new item size and every carried-in bin size is within
`max_bin_size` (`binPackCore` is the engine up to the final sorted bin list,
so this covers every returned packed bin and leftover bin). -/
theorem capacity_invariant_amended (is_profiling : Bool) (sizes : List Nat)
    (examples : List PackExample) (num_bins max_bin_size : Nat)
    (existing_bins : List PackBin) (bs : List PackBin)
    (hs : ∀ s ∈ sizes, s ≤ max_bin_size)
    (hb : ∀ b ∈ existing_bins, b.1 ≤ max_bin_size)
    (h : binPackCore is_profiling sizes examples num_bins max_bin_size
      existing_bins = .ok bs) :
    ∀ b ∈ bs, b.1 ≤ max_bin_size := by
  have hzip : ∀ x ∈ sizes.zip examples, x.1 ≤ max_bin_size := by
    intro x hx
    obtain ⟨x1, x2⟩ := x
    exact hs x1 (List.of_mem_zip hx).1
  have hsorted : ∀ x ∈ sortBySizeDesc (sizes.zip examples), x.1 ≤ max_bin_size :=
    fun x hx => hzip x ((sortBySizeDesc_perm _).mem_iff.mp hx)
  simp only [binPackCore] at h
  split at h
  · split at h
    · cases h
    · cases h
      intro b hb2
      have hmem := (sortBySizeDesc_perm _).mem_iff.mp hb2
      rcases List.mem_append.mp hmem with hm | hm
      · exact hb b hm
      · exact hsorted b hm
  · split at h
    · cases h
    next bins2 heq =>
      split at h
      · cases h
      · cases h
        intro b hb2
        exact packLoop_cap is_profiling num_bins max_bin_size _ _ _ _ hsorted hb heq
          b ((sortBySizeDesc_perm _).mem_iff.mp hb2)

/-- Witness for `capacity_invariant_amended` at spec Scenario 1 (four items
of size 50 into two bins of capacity 100): the first returned bin has size
100, within capacity. -/
theorem capacity_invariant_amended_witness :
    ((100, ⟨[9,9], none, [1,1], [0,1]⟩) : PackBin).1 ≤ 100 :=
  capacity_invariant_amended false [50,50,50,50]
    [⟨[9], none, [1], [0]⟩, ⟨[9], none, [1], [0]⟩, ⟨[9], none, [1], [0]⟩,
      ⟨[9], none, [1], [0]⟩] 2 100 []
    [(100, ⟨[9,9], none, [1,1], [0,1]⟩), (100, ⟨[9,9], none, [1,1], [0,1]⟩)]
    (by decide) (by decide) rfl (100, ⟨[9,9], none, [1,1], [0,1]⟩)
    (List.mem_cons_self _ _)

/-- C5: in the fast-exit case (fewer new items than
`max(0, num_bins - len(existing_bins))`), every new item is placed into its
own new bin with no combination attempted: the final bin list of the engine
is a permutation of the untouched existing bins together with the new
`(size, example)` pairs themselves. -/
theorem fast_exit_own_bins (is_profiling : Bool) (sizes : List Nat)
    (examples : List PackExample) (num_bins max_bin_size : Nat)
    (existing_bins : List PackBin)
    (hlen : sizes.length = examples.length)
    (hfast : sizes.length < num_bins - existing_bins.length) :
    ∃ bs, binPackCore is_profiling sizes examples num_bins max_bin_size
        existing_bins = .ok bs ∧
      bs.Perm (existing_bins ++ sizes.zip examples) := by
  have hz : sumBins (sizes.zip examples) = sizes.sum :=
    sumBins_zip sizes examples (le_of_eq hlen)
  refine ⟨sortBySizeDesc (existing_bins ++ sortBySizeDesc (sizes.zip examples)), ?_, ?_⟩
  · simp only [binPackCore]
    rw [if_pos hfast, if_neg ?_]
    rw [sumBins_append, sumBins_sortBySizeDesc, hz]
    omega
  · exact (sortBySizeDesc_perm _).trans
      (((sortBySizeDesc_perm _).append_left existing_bins))

/-- Witness for `fast_exit_own_bins`: one item of size 3 with three requested
bins and no existing bins. -/
theorem fast_exit_own_bins_witness :
    ∃ bs, binPackCore false [3] [⟨[9], none, [1], [0]⟩] 3 10 [] = .ok bs ∧
      bs.Perm ([] ++ [3].zip [⟨[9], none, [1], [0]⟩]) :=
  fast_exit_own_bins false [3] [⟨[9], none, [1], [0]⟩] 3 10 [] (by decide) (by decide)

/-- C6 counterexample: when `sizes` and `examples` have different lengths
(here one size `5` but no examples), `zip` drops the unmatched sizes, the
post-pass total differs from `sum(sizes)`, and the consistency
`AssertionError` is raised, so the assertion branch is reachable for general
inputs. -/
theorem consistency_assertion_counterexample :
    _first_fit_bin_packing false [5] [] 1 10 [] = .error (packingAssertionMsg, []) :=
  rfl

/-- C6 (amended): for inputs in which `sizes` and `examples` have equal
length — every call site pairs them one to one — the total bin size after
processing minus the baseline equals the sum of the input sizes, so the
consistency `AssertionError` branch is unreachable on both the fast-exit
path and the general path (a call may still fail inside the combine step,
but never with the consistency assertion). -/
theorem consistency_assertion_unreachable (is_profiling : Bool) (sizes : List Nat)
    (examples : List PackExample) (num_bins max_bin_size : Nat)
    (existing_bins : List PackBin) (bs : List PackBin)
    (hlen : sizes.length = examples.length) :
    _first_fit_bin_packing is_profiling sizes examples num_bins max_bin_size
      existing_bins ≠ .error (packingAssertionMsg, bs) := by
  intro h
  unfold _first_fit_bin_packing at h
  split at h
  next e heq =>
    obtain ⟨m1, bs1⟩ := e
    cases h with
    | refl =>
      exact binPackCore_error_ne is_profiling sizes examples num_bins max_bin_size
        existing_bins hlen _ _ heq rfl
  · cases h

/-- Witness for `consistency_assertion_unreachable` on a concrete call. -/
theorem consistency_assertion_unreachable_witness :
    _first_fit_bin_packing false [5] [⟨[9], none, [1], [0]⟩] 1 10 [] ≠
      .error (packingAssertionMsg, []) :=
  consistency_assertion_unreachable false [5] [⟨[9], none, [1], [0]⟩] 1 10 [] []
    (by decide)

theorem convert_to_batch_cons (c : BinPackCollator) (e0 : PackExample)
    (rest : List PackExample) :
    _convert_to_batch c (e0 :: rest) = convertEach c e0.labels.isSome (e0 :: rest) :=
  rfl

theorem pad_ok_of (t : List Int) (v : Int) (n : Nat) (side : String)
    (hside : side = "left" ∨ side = "right") (h1 : 1 ≤ t.length)
    (h2 : t.length ≤ n) :
    ∃ t2, _pad_tensor t v n side = .ok t2 ∧ t2.length = n := by
  rcases hside with hside | hside <;> subst hside
  · refine ⟨_, (pad_tensor_amended t v n "left").2.2.1 h1 h2, ?_⟩
    simp
    omega
  · refine ⟨_, (pad_tensor_amended t v n "right").2.2.2.1 h2, ?_⟩
    simp
    omega

theorem padOne_ok (c : BinPackCollator) (lb : Bool) (e : PackExample) (s : Nat)
    (hside : c.padding_side = "left" ∨ c.padding_side = "right")
    (hwf : WFex s e) (h1 : 1 ≤ s) (hcap : s ≤ c.max_seq_len)
    (hlb : e.labels.isSome = lb) :
    ∃ pe, padOne c lb e = .ok pe ∧ pe.input_ids.length = c.max_seq_len ∧
      pe.attention_mask.length = c.max_seq_len ∧
      pe.sequence_id.length = c.max_seq_len ∧
      (∀ l ∈ pe.labels, l.length = c.max_seq_len) := by
  obtain ⟨hii, ham, hsid, hlab⟩ := hwf
  obtain ⟨ii, hiiok, hiilen⟩ := pad_ok_of e.input_ids c.pad_token_id c.max_seq_len
    c.padding_side hside (by omega) (by omega)
  obtain ⟨am, hamok, hamlen⟩ := pad_ok_of e.attention_mask 0 c.max_seq_len
    c.padding_side hside (by omega) (by omega)
  obtain ⟨sid, hsidok, hsidlen⟩ := pad_ok_of e.sequence_id (-1) c.max_seq_len
    c.padding_side hside (by omega) (by omega)
  cases lb with
  | false =>
    have hnone : e.labels = none := by
      cases hl : e.labels with
      | none => rfl
      | some l => rw [hl] at hlb; simp at hlb
    refine ⟨⟨ii, none, am, sid⟩, ?_, hiilen, hamlen, hsidlen, by simp⟩
    unfold padOne
    simp [hiiok, hamok, hsidok, hnone]
  | true =>
    obtain ⟨l, hl⟩ : ∃ l, e.labels = some l := by
      cases hl : e.labels with
      | none => rw [hl] at hlb; simp at hlb
      | some l => exact ⟨l, rfl⟩
    have hllen : l.length = s := hlab l (by rw [hl]; rfl)
    obtain ⟨pl, hplok, hpllen⟩ := pad_ok_of l CROSS_ENTROPY_IGNORE_INDEX c.max_seq_len
      c.padding_side hside (by omega) (by omega)
    refine ⟨⟨ii, some pl, am, sid⟩, ?_, hiilen, hamlen, hsidlen, by simpa using hpllen⟩
    unfold padOne
    simp [hiiok, hamok, hsidok, hl, hplok]

theorem convertEach_ok (c : BinPackCollator) (lb : Bool)
    (hside : c.padding_side = "left" ∨ c.padding_side = "right") :
    ∀ l : List PackExample,
      (∀ e ∈ l, ∃ s, WFex s e ∧ 1 ≤ s ∧ s ≤ c.max_seq_len ∧ e.labels.isSome = lb) →
      ∃ pl, convertEach c lb l = .ok pl ∧ pl.length = l.length ∧
        ∀ pe ∈ pl, pe.input_ids.length = c.max_seq_len ∧
          pe.attention_mask.length = c.max_seq_len ∧
          pe.sequence_id.length = c.max_seq_len ∧
          (∀ lab ∈ pe.labels, lab.length = c.max_seq_len) := by
  intro l
  induction l with
  | nil => exact fun _ => ⟨[], rfl, rfl, by simp⟩
  | cons e rest ih =>
    intro hall
    obtain ⟨s, hwf, h1, hcap, hlb⟩ := hall e (List.mem_cons_self _ _)
    obtain ⟨pe, hpe, hpe1, hpe2, hpe3, hpe4⟩ := padOne_ok c lb e s hside hwf h1 hcap hlb
    obtain ⟨pl, hpl, hpllen, hplall⟩ := ih (fun x hx => hall x (List.mem_cons_of_mem _ hx))
    refine ⟨pe :: pl, ?_, by simp [hpllen], ?_⟩
    · rw [convertEach, hpe, hpl]
    · intro x hx
      rcases List.mem_cons.mp hx with hx | hx
      · subst hx
        exact ⟨hpe1, hpe2, hpe3, hpe4⟩
      · exact hplall x hx

/-- C3 counterexample: a Normal-mode pack call with sufficient input (one new
example, `target_batch_size = 1`) raises instead of returning a batch when
the example is longer than `max_seq_len` (size 7 > 5): the engine packs it
into an oversize bin and the re-padding step fails, so sufficient input
alone does not guarantee a returned batch. -/
theorem output_cardinality_counterexample :
    _pack_trimmed_examples ⟨1, 5, 0, "right", none, 0, 0, 0, [], false⟩
        [⟨[1,1,1,1,1,1,1], none, [1,1,1,1,1,1,1], [0,0,0,0,0,0,0]⟩] [7] =
      .error (shapeMismatchMsg, ⟨1, 5, 0, "right", none, 7, 7, 1, [], false⟩) ∧
    (1 : Nat) ≤ [7].length + ([] : List PackBin).length :=
  ⟨rfl, by decide⟩

/-- C3 (amended): a Normal-mode `_pack_trimmed_examples` call returns a batch
of exactly `target_batch_size` examples, each with every field of length
exactly `max_seq_len`, provided the input is sufficient (new examples plus
carried-over leftover bins at least `target_batch_size`) and well formed:
sizes pair one-to-one with examples, every new example and carried bin is
non-empty, within `max_seq_len`, has fields of its recorded size and a
uniform label-presence, `target_batch_size` is positive (the constructor
enforces this) and the padding side is one of `left`/`right`. -/
theorem output_cardinality_amended (c : BinPackCollator)
    (trimmed_examples : List PackExample) (sizes : List Nat) (lb : Bool)
    (hprof : c.is_profiling = false)
    (hout : 0 < c.out_size)
    (hside : c.padding_side = "left" ∨ c.padding_side = "right")
    (hlen : sizes.length = trimmed_examples.length)
    (hsuff : c.out_size ≤ sizes.length + c.leftover_bins.length)
    (hitems : ∀ x ∈ sizes.zip trimmed_examples,
      WFex x.1 x.2 ∧ 1 ≤ x.1 ∧ x.1 ≤ c.max_seq_len ∧ x.2.labels.isSome = lb)
    (hbins : ∀ b ∈ c.leftover_bins, GoodBin c.max_seq_len lb b) :
    ∃ c2 batch, _pack_trimmed_examples c trimmed_examples sizes = .ok (c2, some batch) ∧
      batch.length = c.out_size ∧
      ∀ e ∈ batch, e.input_ids.length = c.max_seq_len ∧
        e.attention_mask.length = c.max_seq_len ∧
        e.sequence_id.length = c.max_seq_len ∧
        (∀ l ∈ e.labels, l.length = c.max_seq_len) := by
  obtain ⟨bs, hcore, hgood, hblen⟩ := binPackCore_sound sizes trimmed_examples
    c.out_size c.max_seq_len c.leftover_bins lb hlen hsuff hitems hbins
  have hengine : _first_fit_bin_packing c.is_profiling sizes trimmed_examples
      c.out_size c.max_seq_len c.leftover_bins =
      .ok ⟨(bs.take c.out_size).map Prod.snd, sumBins (bs.take c.out_size),
        sizes.sum, bs.drop c.out_size⟩ := by
    rw [hprof]
    unfold _first_fit_bin_packing
    rw [hcore]
  have hplen : ((bs.take c.out_size).map Prod.snd).length = c.out_size := by
    simp [List.length_take]
    omega
  have hmem : ∀ e ∈ (bs.take c.out_size).map Prod.snd,
      ∃ s, WFex s e ∧ 1 ≤ s ∧ s ≤ c.max_seq_len ∧ e.labels.isSome = lb := by
    intro e he
    obtain ⟨b, hb, hbe⟩ := List.mem_map.mp he
    obtain ⟨hwf, h1, hcap, hlb2⟩ := hgood b (List.mem_of_mem_take hb)
    exact ⟨b.1, hbe ▸ hwf, h1, hcap, hbe ▸ hlb2⟩
  obtain ⟨e0, rest0, hpeq⟩ :
      ∃ e0 rest0, (bs.take c.out_size).map Prod.snd = e0 :: rest0 := by
    cases hp : (bs.take c.out_size).map Prod.snd with
    | nil => rw [hp] at hplen; simp at hplen; omega
    | cons a t => exact ⟨a, t, rfl⟩
  obtain ⟨s0, _, _, _, he0lb⟩ := hmem e0 (by rw [hpeq]; exact List.mem_cons_self _ _)
  obtain ⟨pl, hpl, hpllen, hplall⟩ := convertEach_ok
    { c with
      n_packed_tokens := c.n_packed_tokens + sumBins (bs.take c.out_size)
      n_total_tokens := c.n_total_tokens + sizes.sum
      n_packed_examples := c.n_packed_examples + c.out_size
      leftover_bins := truncateLeftovers (bs.drop c.out_size)
        c.max_leftover_bins_to_keep }
    lb hside ((bs.take c.out_size).map Prod.snd) hmem
  have hconv : _convert_to_batch
      { c with
        n_packed_tokens := c.n_packed_tokens + sumBins (bs.take c.out_size)
        n_total_tokens := c.n_total_tokens + sizes.sum
        n_packed_examples := c.n_packed_examples + c.out_size
        leftover_bins := truncateLeftovers (bs.drop c.out_size)
          c.max_leftover_bins_to_keep }
      ((bs.take c.out_size).map Prod.snd) = .ok pl := by
    rw [hpeq, convert_to_batch_cons, he0lb, ← hpeq]
    exact hpl
  refine ⟨{ c with
      n_packed_tokens := c.n_packed_tokens + sumBins (bs.take c.out_size)
      n_total_tokens := c.n_total_tokens + sizes.sum
      n_packed_examples := c.n_packed_examples + c.out_size
      leftover_bins := truncateLeftovers (bs.drop c.out_size)
        c.max_leftover_bins_to_keep }, pl, ?_, by rw [hpllen]; exact hplen, hplall⟩
  unfold _pack_trimmed_examples
  rw [hengine]
  dsimp only
  rw [hprof, if_neg Bool.false_ne_true]
  have hconv2 := hconv
  rw [hprof] at hconv2
  rw [hconv2]

/-- Witness for `output_cardinality_amended`: one example of size 2 packed by
a collator with `target_batch_size = 1`, `max_seq_len = 3`, right padding. -/
theorem output_cardinality_amended_witness :
    ∃ c2 batch, _pack_trimmed_examples ⟨1, 3, 0, "right", none, 0, 0, 0, [], false⟩
        [⟨[4,4], none, [1,1], [0,0]⟩] [2] = .ok (c2, some batch) ∧
      batch.length = (⟨1, 3, 0, "right", none, 0, 0, 0, [], false⟩ : BinPackCollator).out_size ∧
      ∀ e ∈ batch,
        e.input_ids.length =
          (⟨1, 3, 0, "right", none, 0, 0, 0, [], false⟩ : BinPackCollator).max_seq_len ∧
        e.attention_mask.length =
          (⟨1, 3, 0, "right", none, 0, 0, 0, [], false⟩ : BinPackCollator).max_seq_len ∧
        e.sequence_id.length =
          (⟨1, 3, 0, "right", none, 0, 0, 0, [], false⟩ : BinPackCollator).max_seq_len ∧
        (∀ l ∈ e.labels,
          l.length =
            (⟨1, 3, 0, "right", none, 0, 0, 0, [], false⟩ : BinPackCollator).max_seq_len) :=
  output_cardinality_amended ⟨1, 3, 0, "right", none, 0, 0, 0, [], false⟩
    [⟨[4,4], none, [1,1], [0,0]⟩] [2] false rfl (by decide) (by decide) (by decide)
    (by decide) (by decide) (by decide)

/-- C7 counterexample: a Normal-mode pack call that raises inside the engine
can leave the leftover-bin list mutated.  Three examples are packed into one
bin slot; the third fits into the first opened bin, that bin is popped and
`_combine_in_place` raises `KeyError` (the bin has `labels`, the add-on does
not), so the call raises while the collator's leftover-bin list — aliased
in place by the engine — now holds the second opened bin instead of the
empty list it held before the call. -/
theorem pack_atomicity_counterexample :
    _pack_trimmed_examples ⟨1, 5, 0, "left", none, 0, 0, 0, [], false⟩
        [⟨[1,1,1], some [7,7,7], [1,1,1], [0,0,0]⟩,
         ⟨[2,2,2], some [8,8,8], [1,1,1], [0,0,0]⟩,
         ⟨[3,3], none, [1,1], [0,0]⟩] [3, 3, 2] =
      .error (keyErrorLabelsMsg,
        ⟨1, 5, 0, "left", none, 0, 0, 0,
          [(3, ⟨[2,2,2], some [8,8,8], [1,1,1], [0,0,0]⟩)], false⟩) ∧
    (⟨1, 5, 0, "left", none, 0, 0, 0,
        [(3, ⟨[2,2,2], some [8,8,8], [1,1,1], [0,0,0]⟩)], false⟩ :
      BinPackCollator).leftover_bins ≠
      (⟨1, 5, 0, "left", none, 0, 0, 0, [], false⟩ : BinPackCollator).leftover_bins :=
  ⟨rfl, by decide⟩

/-- C7 (amended): when the engine call inside `_pack_trimmed_examples`
raises, the counters `n_packed_tokens`, `n_total_tokens` and
`n_packed_examples` are left intact (they are only updated after the engine
returns), but the leftover-bin list is not protected: it is aliased by the
engine's working bin list and on a raise it holds whatever state that list
had at the raise; when the engine succeeds and the re-padding conversion
raises instead, the counters and leftover bins have already been updated. -/
theorem engine_error_atomicity (c : BinPackCollator)
    (trimmed_examples : List PackExample) (sizes : List Nat)
    (msg : String) (binsNow : List PackBin)
    (h : _first_fit_bin_packing c.is_profiling sizes trimmed_examples c.out_size
      c.max_seq_len c.leftover_bins = .error (msg, binsNow)) :
    _pack_trimmed_examples c trimmed_examples sizes =
      .error (msg, { c with leftover_bins := binsNow }) ∧
    ({ c with leftover_bins := binsNow } : BinPackCollator).n_packed_tokens =
      c.n_packed_tokens ∧
    ({ c with leftover_bins := binsNow } : BinPackCollator).n_total_tokens =
      c.n_total_tokens ∧
    ({ c with leftover_bins := binsNow } : BinPackCollator).n_packed_examples =
      c.n_packed_examples := by
  refine ⟨?_, rfl, rfl, rfl⟩
  unfold _pack_trimmed_examples
  rw [h]

/-- Witness for `engine_error_atomicity` on the concrete raising call. -/
theorem engine_error_atomicity_witness :
    _pack_trimmed_examples ⟨1, 5, 0, "left", none, 4, 9, 2, [], false⟩
        [⟨[1,1,1], some [7,7,7], [1,1,1], [0,0,0]⟩,
         ⟨[2,2,2], some [8,8,8], [1,1,1], [0,0,0]⟩,
         ⟨[3,3], none, [1,1], [0,0]⟩] [3, 3, 2] =
      .error (keyErrorLabelsMsg,
        { (⟨1, 5, 0, "left", none, 4, 9, 2, [], false⟩ : BinPackCollator) with
          leftover_bins := [(3, ⟨[2,2,2], some [8,8,8], [1,1,1], [0,0,0]⟩)] }) ∧
    ({ (⟨1, 5, 0, "left", none, 4, 9, 2, [], false⟩ : BinPackCollator) with
        leftover_bins := [(3, ⟨[2,2,2], some [8,8,8], [1,1,1], [0,0,0]⟩)] } :
      BinPackCollator).n_packed_tokens =
      (⟨1, 5, 0, "left", none, 4, 9, 2, [], false⟩ : BinPackCollator).n_packed_tokens ∧
    ({ (⟨1, 5, 0, "left", none, 4, 9, 2, [], false⟩ : BinPackCollator) with
        leftover_bins := [(3, ⟨[2,2,2], some [8,8,8], [1,1,1], [0,0,0]⟩)] } :
      BinPackCollator).n_total_tokens =
      (⟨1, 5, 0, "left", none, 4, 9, 2, [], false⟩ : BinPackCollator).n_total_tokens ∧
    ({ (⟨1, 5, 0, "left", none, 4, 9, 2, [], false⟩ : BinPackCollator) with
        leftover_bins := [(3, ⟨[2,2,2], some [8,8,8], [1,1,1], [0,0,0]⟩)] } :
      BinPackCollator).n_packed_examples =
      (⟨1, 5, 0, "left", none, 4, 9, 2, [], false⟩ : BinPackCollator).n_packed_examples :=
  engine_error_atomicity ⟨1, 5, 0, "left", none, 4, 9, 2, [], false⟩
    [⟨[1,1,1], some [7,7,7], [1,1,1], [0,0,0]⟩,
     ⟨[2,2,2], some [8,8,8], [1,1,1], [0,0,0]⟩,
     ⟨[3,3], none, [1,1], [0,0]⟩] [3, 3, 2] keyErrorLabelsMsg
    [(3, ⟨[2,2,2], some [8,8,8], [1,1,1], [0,0,0]⟩)] rfl

theorem mkBinPackCollator_ok_state (target_batch_size max_seq_len pad_token_id : Int)
    (padding_side : String) (max_leftover_bins_to_keep : Option Int)
    (is_profiling : Bool) (c : BinPackCollator)
    (h : mkBinPackCollator target_batch_size max_seq_len pad_token_id padding_side
      max_leftover_bins_to_keep is_profiling = .ok c) :
    c.n_packed_tokens = 0 ∧ c.n_total_tokens = 0 ∧ c.leftover_bins = [] := by
  unfold mkBinPackCollator at h
  split at h
  · cases h
  · split at h
    · cases h
    · split at h
      · cases h
      · split at h
        · split at h
          · cases h
          · cases h
            exact ⟨rfl, rfl, rfl⟩
        · cases h
          exact ⟨rfl, rfl, rfl⟩

/-- Every reachable collator state keeps its packed-token count plus the
tokens still stored in carried leftover bins below its total-token count:
per call the engine conserves tokens and truncating leftovers only drops
tokens. -/
theorem reachable_collator_inv (c : BinPackCollator) (h : ReachableCollator c) :
    c.n_packed_tokens + sumBins c.leftover_bins ≤ c.n_total_tokens := by
  induction h with
  | init tbs msl pti ps mlk ip c0 h0 =>
    obtain ⟨h1, h2, h3⟩ := mkBinPackCollator_ok_state tbs msl pti ps mlk ip c0 h0
    rw [h1, h2, h3]
    simp [sumBins]
  | step c0 c1 exs sizes b hc hok ih =>
    unfold _pack_trimmed_examples at hok
    split at hok
    · cases hok
    next r heq =>
      obtain ⟨bs, hcore, _, hp, ht, hl⟩ := first_fit_ok_elim heq
      have hsum := binPackCore_ok_sum c0.is_profiling sizes exs c0.out_size
        c0.max_seq_len c0.leftover_bins bs hcore
      have hc1 : c1.n_packed_tokens = c0.n_packed_tokens + r.n_packed_tokens ∧
          c1.n_total_tokens = c0.n_total_tokens + r.n_total_tokens ∧
          c1.leftover_bins =
            truncateLeftovers r.leftover_bins c0.max_leftover_bins_to_keep := by
        split at hok
        · cases hok
          exact ⟨rfl, rfl, rfl⟩
        · dsimp only at hok
          split at hok
          · cases hok
          · cases hok
            exact ⟨rfl, rfl, rfl⟩
      obtain ⟨hm1, hm2, hm3⟩ := hc1
      have htrunc : sumBins (truncateLeftovers r.leftover_bins
          c0.max_leftover_bins_to_keep) ≤ sumBins r.leftover_bins := by
        cases c0.max_leftover_bins_to_keep with
        | none => exact le_refl _
        | some k => exact sumBins_take_le _ _
      have hcons : r.n_packed_tokens + sumBins r.leftover_bins =
          sizes.sum + sumBins c0.leftover_bins := by
        rw [hp, hl, ← sumBins_append, List.take_append_drop, hsum]
        omega
      rw [hm1, hm2, hm3, ht]
      omega

/-- C10: cumulative waste is bounded.  After any finite sequence of
successful packing calls starting from a freshly constructed collator,
`n_packed_tokens <= n_total_tokens` (each input token is counted toward
`n_packed_tokens` at most once, even when carried across calls in leftover
bins), so the `waste` metric lies in `[0, 1]` whenever it is defined (the
division requires at least one counted token). -/
theorem cumulative_waste_bounded (c : BinPackCollator) (h : ReachableCollator c) :
    c.n_packed_tokens ≤ c.n_total_tokens ∧
    (0 < c.n_total_tokens → 0 ≤ c.waste ∧ c.waste ≤ 1) := by
  have hinv := reachable_collator_inv c h
  have hle : c.n_packed_tokens ≤ c.n_total_tokens := by omega
  refine ⟨hle, fun hpos => ?_⟩
  unfold BinPackCollator.waste
  have hq : (0 : ℚ) < (c.n_total_tokens : ℚ) := by exact_mod_cast hpos
  have hpq : (c.n_packed_tokens : ℚ) ≤ (c.n_total_tokens : ℚ) := by exact_mod_cast hle
  have hdiv1 : (c.n_packed_tokens : ℚ) / (c.n_total_tokens : ℚ) ≤ 1 := by
    rw [div_le_one hq]
    exact hpq
  have hdiv0 : (0 : ℚ) ≤ (c.n_packed_tokens : ℚ) / (c.n_total_tokens : ℚ) := by
    positivity
  constructor <;> linarith

/-- Witness for `cumulative_waste_bounded`: a profiling collator constructed
with `target_batch_size = 1`, `max_seq_len = 5` after one successful call on
one example of size 2. -/
theorem cumulative_waste_bounded_witness :
    (⟨1, 5, 0, "left", none, 2, 2, 1, [], true⟩ : BinPackCollator).n_packed_tokens ≤
      (⟨1, 5, 0, "left", none, 2, 2, 1, [], true⟩ : BinPackCollator).n_total_tokens ∧
    (0 < (⟨1, 5, 0, "left", none, 2, 2, 1, [], true⟩ : BinPackCollator).n_total_tokens →
      0 ≤ (⟨1, 5, 0, "left", none, 2, 2, 1, [], true⟩ : BinPackCollator).waste ∧
      (⟨1, 5, 0, "left", none, 2, 2, 1, [], true⟩ : BinPackCollator).waste ≤ 1) :=
  cumulative_waste_bounded ⟨1, 5, 0, "left", none, 2, 2, 1, [], true⟩
    (ReachableCollator.step ⟨1, 5, 0, "left", none, 0, 0, 0, [], true⟩
      ⟨1, 5, 0, "left", none, 2, 2, 1, [], true⟩ [⟨[3,3], none, [1,1], [0,0]⟩] [2] none
      (ReachableCollator.init 1 5 0 "left" none true
        ⟨1, 5, 0, "left", none, 0, 0, 0, [], true⟩ rfl) rfl)

end LLMFoundryPacking
